import Mathlib

/-!
Verification of the caching and worker-dispatch core of `yt-cipher-bun`.

The development shallow-embeds the TypeScript sources:
  * the generic `LRUCache` class of `src/cacheManager.ts` (the class with
    fields `v`/`t`/`a` in the alternative `cacheManager` file is the same
    algorithm with shortened names);
  * the disk-backed preprocessed-script cache (`_internal.loadMeta`,
    `_internal.compressContent` / `decompressContent`, `getPreprocessed`,
    `setPreprocessed`);
  * the `WorkerPool` class of `src/workerPool.ts` together with the
    module-level `initWorkers` / `execInPool` / `shutdownWorkers`;
  * the signature-result path of `src/handlers/decryptSignature.ts`.

JavaScript `Map`s are modelled as insertion-ordered association lists,
`Date.now()` as an explicit `now : Nat` argument (the clock is monotone, so
truncated `Nat` subtraction agrees with JS subtraction in every age check),
byte buffers as `String` (the `TextEncoder`/`TextDecoder` pair is the
identity under this identification), and the event-driven worker runtime as
a step function over an explicit pool state driven by a list of events.
-/

namespace YtCipher

/-! ### Insertion-ordered association lists (JS `Map` / plain-object semantics)

A JS `Map` iterates in insertion order and holds at most one entry per key.
`mapGet` is `Map.get`, `mapDelete` is `Map.delete` (removes the entry with
the key, preserving the order of the rest), `mapSet` is `Map.set`
(overwrites in place when the key exists, otherwise appends). -/

def mapGet {κ β : Type} [DecidableEq κ] (l : List (κ × β)) (k : κ) : Option β :=
  (l.find? (fun p => p.1 = k)).map (·.2)

def mapDelete {κ β : Type} [DecidableEq κ] (l : List (κ × β)) (k : κ) : List (κ × β) :=
  l.eraseP (fun p => p.1 = k)

def mapSet {κ β : Type} [DecidableEq κ] (l : List (κ × β)) (k : κ) (v : β) : List (κ × β) :=
  if (mapGet l k).isSome then
    l.map (fun p => if p.1 = k then (k, v) else p)
  else
    l ++ [(k, v)]

def mapKeys {κ β : Type} (l : List (κ × β)) : List κ := l.map (·.1)

/-! ### Memory cache: `class LRUCache<T>` (src/cacheManager.ts)

```ts
interface CacheEntry<T> { value: T; timestamp: number; lastAccessed: number; }
```
The backing `Map<string, CacheEntry<T>>` is the association list `cache`;
the key type is kept generic (the source always instantiates it with
`string`, which carries no structure the class inspects). -/

structure CacheEntry (α : Type) where
  value : α
  timestamp : Nat
  lastAccessed : Nat
  deriving Repr, DecidableEq

structure LRUCache (κ α : Type) where
  cache : List (κ × CacheEntry α)
  maxSize : Nat
  ttl : Nat
  deriving Repr, DecidableEq

/-- `get(key)`: miss on absent key; expired entry is deleted and missed;
on a hit the entry's `lastAccessed` is refreshed and the entry is deleted
and re-inserted, moving it to the tail (most-recently-used) position. -/
def LRUCache.get {κ α : Type} [DecidableEq κ] (c : LRUCache κ α) (k : κ) (now : Nat) :
    Option α × LRUCache κ α :=
  match mapGet c.cache k with
  | none => (none, c)
  | some e =>
    if now - e.timestamp > c.ttl then
      (none, { c with cache := mapDelete c.cache k })
    else
      let e' := { e with lastAccessed := now }
      (some e'.value, { c with cache := mapDelete c.cache k ++ [(k, e')] })

/-- `set(key, value)`: an existing key is deleted first (recency refresh);
otherwise, at capacity, the first-ordered entry (`this.cache.keys().next().value`)
is deleted; the new entry is appended at the tail. -/
def LRUCache.set {κ α : Type} [DecidableEq κ] (c : LRUCache κ α) (k : κ) (v : α) (now : Nat) :
    LRUCache κ α :=
  let c1 :=
    if (mapGet c.cache k).isSome then
      mapDelete c.cache k
    else if c.cache.length ≥ c.maxSize then
      match c.cache.head? with
      | none => c.cache
      | some (k0, _) => mapDelete c.cache k0
    else
      c.cache
  { c with cache := c1 ++ [(k, ⟨v, now, now⟩)] }

/-- `has(key)`: freshness check identical to `get` (expired entries are
deleted) but without the recency promotion. -/
def LRUCache.has {κ α : Type} [DecidableEq κ] (c : LRUCache κ α) (k : κ) (now : Nat) :
    Bool × LRUCache κ α :=
  match mapGet c.cache k with
  | none => (false, c)
  | some e =>
    if now - e.timestamp > c.ttl then
      (false, { c with cache := mapDelete c.cache k })
    else
      (true, c)

def LRUCache.empty {κ α : Type} (maxSize ttl : Nat) : LRUCache κ α :=
  ⟨[], maxSize, ttl⟩

/-! ### Disk-backed preprocessed-script cache

Embeds the disk-cache half of the cache manager: the module-level
`metadata` / `metaLoaded` / `metaDirty` / `saveTimer` state, the
`_internal` helpers (`loadMeta`, `saveMeta`, `scheduleSave`, `unlinkFile`,
`getFilePath`, `shouldCompress`, `compressContent`, `decompressContent`)
and the exported `getPreprocessed` / `setPreprocessed`.

The file system is part of the state: `files` maps a path to its byte
content (bytes are modelled as `String`; `TextEncoder`/`TextDecoder` is the
identity under this identification), `badFiles` lists paths whose read
raises a non-`ENOENT` I/O error, and `metaFile` is the state of the
metadata JSON document.  The external `zstdCompress` / `zstdDecompress`
pair from `bun` is a parameter `(zc zd : String → String)` of the
operations that use it. -/

def CACHE_DIR : String := "player_cache"

def PROCESSED_DIR : String := CACHE_DIR ++ "/processed"

def DISK_CACHE_SIZE : Nat := 100

def CACHE_TTL : Nat := 86400000

def SIG_TTL : Nat := 3600000

def COMPRESSION_THRESHOLD : Nat := 4194304

/-- JS `String.prototype.replace` with a string pattern replaces only the
first occurrence. -/
def replaceFirst (s pat repl : String) : String :=
  match s.splitOn pat with
  | [] => s
  | [x] => x
  | x :: rest => x ++ repl ++ String.intercalate pat rest

/-- `path.split('/').pop()?.replace('.js', '') || ''` — the hash component
a cache key contributes to its backing file name. -/
def keyHash (path : String) : String :=
  replaceFirst ((path.splitOn "/").getLast?.getD "") ".js" ""

/-- `_internal.getFilePath(hash, compressed, baseDir, suffix)`. -/
def getFilePath (hash : String) (compressed : Bool) (baseDir suffix : String) : String :=
  let base := baseDir ++ "/" ++ hash ++ suffix
  if compressed then base ++ ".zst" else base

/-- Backing file of the preprocessed entry stored under cache key `path`. -/
def procFilePath (path : String) (compressed : Bool) : String :=
  getFilePath (keyHash path) compressed PROCESSED_DIR "_processed.js"

structure ProcEntry where
  t : Nat
  a : Nat
  compressed : Bool
  deriving Repr, DecidableEq

structure PlayerEntry where
  url : String
  t : Nat
  a : Nat
  compressed : Bool
  deriving Repr, DecidableEq

structure Metadata where
  players : List (String × PlayerEntry)
  processed : List (String × ProcEntry)
  deriving Repr, DecidableEq

/-- State of the metadata JSON document on disk, as seen by a read. -/
inductive MetaFile where
  | absent
  | ioError
  | stored (m : Metadata)
  deriving Repr, DecidableEq

inductive ReadResult where
  | ok (data : String)
  | enoent
  | ioErr
  deriving Repr, DecidableEq

structure DiskState where
  metadata : Metadata
  metaLoaded : Bool
  metaDirty : Bool
  saveTimerSet : Bool
  metaFile : MetaFile
  files : List (String × String)
  badFiles : List String
  deriving Repr, DecidableEq

def readFileAt (s : DiskState) (p : String) : ReadResult :=
  if p ∈ s.badFiles then .ioErr
  else
    match mapGet s.files p with
    | some d => .ok d
    | none => .enoent

/-- `_internal.unlinkFile`: `fs.unlink` with every error swallowed. -/
def unlinkFile (s : DiskState) (p : String) : DiskState :=
  { s with files := mapDelete s.files p }

def writeFileAt (s : DiskState) (p d : String) : DiskState :=
  { s with files := mapSet s.files p d }

/-- `_internal.loadMeta`: loads the metadata document once per process;
`ENOENT` yields empty metadata, any other read (or parse) error is
rethrown (`if (err.code !== 'ENOENT') throw err`). -/
def loadMeta (s : DiskState) : Except Unit DiskState :=
  if s.metaLoaded then .ok s
  else
    match s.metaFile with
    | .stored m => .ok { s with metadata := m, metaLoaded := true }
    | .absent => .ok { s with metadata := ⟨[], []⟩, metaLoaded := true }
    | .ioError => .error ()

/-- `_internal.scheduleSave`: marks the metadata dirty and arms the
debounced save timer when none is pending. -/
def scheduleSave (s : DiskState) : DiskState :=
  if s.saveTimerSet then s else { s with metaDirty := true, saveTimerSet := true }

/-- `_internal.saveMeta`: flushes the in-memory metadata mirror to the
document when dirty (run by the debounced timer). -/
def saveMeta (s : DiskState) : DiskState :=
  if s.metaDirty then { s with metaFile := .stored s.metadata, metaDirty := false } else s

def shouldCompress (content : String) : Bool :=
  content.length > COMPRESSION_THRESHOLD

def compressContent (zc : String → String) (content : String) : String × Bool :=
  if shouldCompress content then (zc content, true) else (content, false)

def decompressContent (zd : String → String) (data : String) (compressed : Bool) : String :=
  if compressed then zd data else data

def setProcessed (s : DiskState) (l : List (String × ProcEntry)) : DiskState :=
  { s with metadata := { s.metadata with processed := l } }

/-- `getPreprocessed(path)`: load metadata (can rethrow), miss on absent
entry; an expired entry has its backing file unlinked and its metadata
entry deleted; otherwise the backing file is read (any failure is caught:
the metadata entry is deleted and the call is a miss), decompressed per
the `compressed` flag, and `lastAccessed` is refreshed. -/
def getPreprocessed (zd : String → String) (s : DiskState) (path : String) (now : Nat) :
    Except Unit (Option String × DiskState) := do
  let s ← loadMeta s
  match mapGet s.metadata.processed path with
  | none => .ok (none, s)
  | some meta =>
    if now - meta.t > CACHE_TTL then
      let s := unlinkFile s (procFilePath path meta.compressed)
      let s := setProcessed s (mapDelete s.metadata.processed path)
      .ok (none, scheduleSave s)
    else
      match readFileAt s (procFilePath path meta.compressed) with
      | .ok data =>
        let content := decompressContent zd data meta.compressed
        let s := setProcessed s (mapSet s.metadata.processed path { meta with a := now })
        .ok (some content, scheduleSave s)
      | _ =>
        let s := setProcessed s (mapDelete s.metadata.processed path)
        .ok (none, scheduleSave s)

/-- The eviction scan of `setPreprocessed`: first entry with the globally
smallest `lastAccessed` (`m.a < lruTime` starting from `Infinity`). -/
def findLRU (l : List (String × ProcEntry)) : Option String :=
  (l.foldl
    (fun best p =>
      match best with
      | none => some (p.1, p.2.a)
      | some (bk, bt) => if p.2.a < bt then some (p.1, p.2.a) else some (bk, bt))
    none).map (·.1)

/-- `setPreprocessed(path, content)`: load metadata (can rethrow); at
capacity with a new key, evict the least-recently-accessed entry (file
unlinked, entry deleted; skipped when the found key is the falsy `""`);
write the (possibly compressed) payload and record the entry with the
compression flag. -/
def setPreprocessed (zc : String → String) (s : DiskState) (path content : String) (now : Nat) :
    Except Unit DiskState := do
  let s ← loadMeta s
  let s :=
    if s.metadata.processed.length ≥ DISK_CACHE_SIZE ∧ (mapGet s.metadata.processed path).isNone then
      match findLRU s.metadata.processed with
      | some lruKey =>
        if lruKey = "" then s
        else
          let oldCompressed :=
            match mapGet s.metadata.processed lruKey with
            | some m => m.compressed
            | none => false
          let s := unlinkFile s (procFilePath lruKey oldCompressed)
          setProcessed s (mapDelete s.metadata.processed lruKey)
      | none => s
    else s
  let dc := compressContent zc content
  let s := writeFileAt s (procFilePath path dc.2) dc.1
  let s := setProcessed s (mapSet s.metadata.processed path ⟨now, now, dc.2⟩)
  .ok (scheduleSave s)

/-! ### Worker pool (src/workerPool.ts)

The event-driven `WorkerPool` is embedded as a state machine.  Workers are
identified by the `Nat` drawn from `nextWorker` when `createWorker` runs;
`workers`, `availableWorkers` and `queue` are the arrays of the class
(`push` appends, `shift` removes at the front), `taskMap` is the
`Map<Worker, Task>`.  A `setTimeout` per dispatched task is recorded in
`timers` as the pair (worker, task id) its closure captures; `clearTimeout`
erases it, and a timer can only fire while armed.  The 1-second delayed
`replaceWorker` scheduled by `onerror` is recorded in
`pendingReplacements`.  Promise settlement is recorded in `settled`: a
task id appears there once its promise has been resolved or rejected. -/

def MAX_QUEUE_SIZE : Nat := 1000

structure PoolTask (α : Type) where
  data : α
  id : Nat
  deriving Repr, DecidableEq

inductive Settle where
  | resolved
  | rejectedError (msg : String)
  | rejectedTimeout
  | rejectedWorkerFault
  | rejectedShutdown
  deriving Repr, DecidableEq

structure PoolState (α : Type) where
  size : Nat
  workers : List Nat
  availableWorkers : List Nat
  queue : List (PoolTask α)
  taskMap : List (Nat × PoolTask α)
  timers : List (Nat × Nat)
  pendingReplacements : List Nat
  nextWorker : Nat
  taskIdCounter : Nat
  settled : List (Nat × Settle)
  deriving Repr, DecidableEq

def initPool (α : Type) (size : Nat) : PoolState α :=
  ⟨size, [], [], [], [], [], [], 0, 0, []⟩

def settleTask {α : Type} (s : PoolState α) (tid : Nat) (o : Settle) : PoolState α :=
  { s with settled := s.settled ++ [(tid, o)] }

/-- The inner `while` of `dispatch`: while both an idle worker and a queued
task exist, shift both, bind the task to the worker in `taskMap`, and arm
its timeout timer. -/
def bindLoop {α : Type} (avail : List Nat) (queue : List (PoolTask α))
    (tm : List (Nat × PoolTask α)) (tms : List (Nat × Nat)) :
    List Nat × List (PoolTask α) × List (Nat × PoolTask α) × List (Nat × Nat) :=
  match avail, queue with
  | w :: avs, t :: q => bindLoop avs q (mapSet tm w t) (tms ++ [(w, t.id)])
  | avail, queue => (avail, queue, tm, tms)

/-- `dispatch()`: lazily create one worker when work is queued, no worker
is idle and the pool is below `size`; then run the binding loop. -/
def dispatch {α : Type} (s : PoolState α) : PoolState α :=
  let s :=
    if s.queue.isEmpty = false ∧ s.availableWorkers.isEmpty = true ∧ s.workers.length < s.size then
      { s with
        nextWorker := s.nextWorker + 1
        workers := s.workers ++ [s.nextWorker]
        availableWorkers := s.availableWorkers ++ [s.nextWorker] }
    else s
  let r := bindLoop s.availableWorkers s.queue s.taskMap s.timers
  { s with availableWorkers := r.1, queue := r.2.1, taskMap := r.2.2.1, timers := r.2.2.2 }

/-- `worker.onmessage`: ignore a message from a worker with no bound task;
otherwise cancel the task's timer, unbind it, return the worker to the
idle list, settle the promise per the message type, and re-dispatch. -/
def onMessage {α : Type} (s : PoolState α) (w : Nat) (success : Bool) (msg : String) :
    PoolState α :=
  match mapGet s.taskMap w with
  | none => s
  | some t =>
    let s :=
      { s with
        timers := s.timers.erase (w, t.id)
        taskMap := mapDelete s.taskMap w
        availableWorkers := s.availableWorkers ++ [w] }
    let s := settleTask s t.id (if success then .resolved else .rejectedError msg)
    dispatch s

/-- `worker.onerror`: reject the bound task (if any) and cancel its timer;
in every case schedule the delayed `replaceWorker` + `dispatch`. -/
def onError {α : Type} (s : PoolState α) (w : Nat) : PoolState α :=
  let s :=
    match mapGet s.taskMap w with
    | some t =>
      settleTask
        { s with
          timers := s.timers.erase (w, t.id)
          taskMap := mapDelete s.taskMap w }
        t.id .rejectedWorkerFault
    | none => s
  { s with pendingReplacements := s.pendingReplacements ++ [w] }

/-- The first-occurrence in-place replacement performed by
`this.workers[idx] = newWorker` after `idx = this.workers.indexOf(oldWorker)`. -/
def setFirst (l : List Nat) (w nw : Nat) : List Nat :=
  match l with
  | [] => []
  | x :: xs => if x = w then nw :: xs else x :: setFirst xs w nw

/-- `replaceWorker(oldWorker)`: no-op when the worker is no longer in the
pool array; otherwise terminate it, create a fresh worker in its slot and
push the fresh worker onto the idle list.  (The old worker is *not*
removed from `availableWorkers`.) -/
def replaceWorker {α : Type} (s : PoolState α) (w : Nat) : PoolState α :=
  if w ∈ s.workers then
    { s with
      nextWorker := s.nextWorker + 1
      workers := setFirst s.workers w s.nextWorker
      availableWorkers := s.availableWorkers ++ [s.nextWorker] }
  else s

/-- The delayed `setTimeout(() => { replaceWorker(worker); dispatch(); }, 1000)`
callback armed by `onerror`. -/
def onReplaceFire {α : Type} (s : PoolState α) (w : Nat) : PoolState α :=
  if w ∈ s.pendingReplacements then
    dispatch (replaceWorker { s with pendingReplacements := s.pendingReplacements.erase w } w)
  else s

/-- The per-task timeout closure: fires only while armed; a stale timer
(the bound task's id differs) returns without effect; otherwise the task
is unbound and rejected with the timeout error, the worker is terminated
and spliced out of `workers`, and `dispatch` runs. -/
def onTimeout {α : Type} (s : PoolState α) (w tid : Nat) : PoolState α :=
  if (w, tid) ∈ s.timers then
    let s := { s with timers := s.timers.erase (w, tid) }
    match mapGet s.taskMap w with
    | some t =>
      if t.id = tid then
        let s := settleTask { s with taskMap := mapDelete s.taskMap w } tid .rejectedTimeout
        dispatch { s with workers := s.workers.erase w }
      else s
    | none => s
  else s

/-- Outcome of one `exec(data)` call: an immediate rejected promise when
the queue is at capacity, otherwise a pending promise for the fresh task
id. -/
inductive ExecRes where
  | rejectedQueueFull
  | queued (id : Nat)
  deriving Repr, DecidableEq

/-- `exec(data)`: fail fast at queue capacity; otherwise push a task with
the next monotonic id and dispatch. -/
def execPool {α : Type} (s : PoolState α) (d : α) : ExecRes × PoolState α :=
  if s.queue.length ≥ MAX_QUEUE_SIZE then (.rejectedQueueFull, s)
  else
    let id := s.taskIdCounter + 1
    let s := { s with taskIdCounter := id, queue := s.queue ++ [⟨d, id⟩] }
    (.queued id, dispatch s)

/-- `shutdown()`: terminate every worker, reject every queued and every
in-flight task with the shutdown error (cancelling their timers), and
clear the four collections. -/
def shutdownPool {α : Type} (s : PoolState α) : PoolState α :=
  { s with
    workers := []
    availableWorkers := []
    queue := []
    taskMap := []
    timers := s.taskMap.foldl (fun ts p => ts.erase (p.1, p.2.id)) s.timers
    settled :=
      s.settled ++ s.queue.map (fun t => (t.id, Settle.rejectedShutdown))
        ++ s.taskMap.map (fun p => (p.2.id, Settle.rejectedShutdown)) }

/-- Events the runtime can deliver to the pool.  Worker-originated events
(`msg`, `err`) can only come from live (non-terminated) workers; a timer
only fires while armed; a delayed replacement only fires while pending. -/
inductive PoolEv (α : Type) where
  | exec (d : α)
  | msg (w : Nat) (success : Bool) (m : String)
  | err (w : Nat)
  | timeout (w tid : Nat)
  | replaceFire (w : Nat)
  | shutdownEv
  deriving Repr, DecidableEq

def poolStep {α : Type} (s : PoolState α) : PoolEv α → PoolState α
  | .exec d => (execPool s d).2
  | .msg w success m => if w ∈ s.workers then onMessage s w success m else s
  | .err w => if w ∈ s.workers then onError s w else s
  | .timeout w tid => onTimeout s w tid
  | .replaceFire w => onReplaceFire s w
  | .shutdownEv => shutdownPool s

def poolRun {α : Type} (s : PoolState α) (evs : List (PoolEv α)) : PoolState α :=
  evs.foldl poolStep s

/-! ### Module-level pool singleton (initWorkers / execInPool / shutdownWorkers) -/

/-- How one `execInPool` call is delivered to its caller: a synchronous
exception (`throw`), an already-rejected promise, or a pending promise. -/
inductive ExecOutcome where
  | thrown (msg : String)
  | promiseRejectedQueueFull
  | promiseQueued (id : Nat)
  deriving Repr, DecidableEq

/-- `initWorkers()`: creates the singleton pool when absent, with the
environment-derived `CONCURRENCY` as its size. -/
def initWorkers (α : Type) (concurrency : Nat) :
    Option (PoolState α) → Option (PoolState α)
  | none => some (initPool α concurrency)
  | some p => some p

/-- `execInPool(data)`: throws synchronously when no pool exists,
otherwise forwards to `pool.exec` and returns its promise. -/
def execInPool {α : Type} (p : Option (PoolState α)) (d : α) :
    ExecOutcome × Option (PoolState α) :=
  match p with
  | none => (.thrown "Worker pool not initialized", none)
  | some pl =>
    let r := execPool pl d
    (match r.1 with
      | .rejectedQueueFull => .promiseRejectedQueueFull
      | .queued id => .promiseQueued id,
     some r.2)

/-- `shutdownWorkers()`: shuts the pool down and drops the reference. -/
def shutdownWorkers {α : Type} (p : Option (PoolState α)) : Option (PoolState α) :=
  match p with
  | none => none
  | some _ => none

/-- `true` when the outcome is delivered through the returned promise
(pending or already rejected) rather than by a synchronous throw. -/
def ExecOutcome.isAsync : ExecOutcome → Bool
  | .thrown _ => false
  | .promiseRejectedQueueFull => true
  | .promiseQueued _ => true

/-! ### Signature-result path of `handleDecryptSignature`

Strings manipulated by the handler are modelled as `List Char`, so that
the `"|"`-join/split pair of the source can be reasoned about
character-by-character.  `splitChar` is JS `String.prototype.split` with a
single-character separator. -/

def splitChar (sep : Char) : List Char → List (List Char)
  | [] => [[]]
  | c :: rest =>
    let r := splitChar sep rest
    if c = sep then [] :: r
    else
      match r with
      | h :: t => (c :: h) :: t
      | [] => [[c]]

/-- `` `${path}:${sig}:${n}` `` — the signature-result cache key. -/
def decKey (path sig n : List Char) : List Char :=
  path ++ ':' :: (sig ++ ':' :: n)

/-- `` `${sig}|${n}` `` — the value stored in the signature-result cache. -/
def joinPair (sig n : List Char) : List Char :=
  sig ++ '|' :: n

/-- The signature-result portion of `handleDecryptSignature`, from the
`getSignature(key)` lookup onward, for an already-resolved player `path`:
on a truthy cached value, split it on `"|"` and answer from the cache
(`sig || ""` / `n || ""`) without dispatching to the pool; otherwise the
engine computes the pair (the solving engine is the black-box parameter
`engine`), the joined pair is stored via `setSignature`, and the pair is
returned.  The middle component records whether the engine was invoked. -/
def handleDecrypt (cache : LRUCache (List Char) (List Char)) (path sig n : List Char)
    (engine : List Char × List Char) (now : Nat) :
    (List Char × List Char) × Bool × LRUCache (List Char) (List Char) :=
  let key := decKey path sig n
  let g := cache.get key now
  let compute := fun (c : LRUCache (List Char) (List Char)) =>
    ((engine.1, engine.2), true, c.set key (joinPair engine.1 engine.2) now)
  match g.1 with
  | some cv =>
    if cv.isEmpty then compute g.2
    else
      let parts := splitChar '|' cv
      ((parts.getD 0 [], parts.getD 1 []), false, g.2)
  | none => compute g.2

/-! ### Concrete scenarios used by witnesses and counterexamples -/

/-- A pool whose queue is at `MAX_QUEUE_SIZE`. -/
def poolFullQueue : PoolState Unit :=
  { initPool Unit 4 with queue := (List.range MAX_QUEUE_SIZE).map (fun i => ⟨(), i⟩) }

/-- The §8 shutdown scenario: five submissions into a pool of size 2 leave
two tasks in flight and three queued. -/
def poolShutdownScenario : PoolState Unit :=
  poolRun (initPool Unit 2) [.exec (), .exec (), .exec (), .exec (), .exec ()]

/-- Crash-loop trace on a pool of size 1: a task completes, the idle
worker then faults at worker level, the delayed replacement fires, and two
more tasks are submitted. -/
def zombieTrace : List (PoolEv Unit) :=
  [.exec (), .msg 0 true "", .err 0, .replaceFire 0, .exec (), .exec ()]

/-- Reachable pool state with one bound task, used to exercise the timeout
path. -/
def poolOneBusy : PoolState Unit :=
  poolRun (initPool Unit 2) [.exec ()]

/-- A payload one byte past the compression threshold. -/
def bigPayload : String :=
  ⟨List.replicate (COMPRESSION_THRESHOLD + 1) 'a'⟩

/-- Disk cache with loaded, empty metadata and an empty file store. -/
def diskEmptyLoaded : DiskState :=
  ⟨⟨[], []⟩, true, false, false, .stored ⟨[], []⟩, [], []⟩

/-- Disk cache whose metadata document read fails with a non-`ENOENT`
I/O error, before the lazy first load has happened. -/
def diskMetaBroken : DiskState :=
  ⟨⟨[], []⟩, false, false, false, .ioError, [], []⟩

/-- Disk cache with a fresh metadata entry whose backing file is missing. -/
def diskStaleMeta : DiskState :=
  ⟨⟨[], [("x.js", ⟨0, 0, false⟩)]⟩, true, false, false, .stored ⟨[], []⟩, [], []⟩

/-- Disk cache with an entry (and backing file) older than the TTL. -/
def diskExpired : DiskState :=
  ⟨⟨[], [("x.js", ⟨0, 0, false⟩)]⟩, true, false, false, .stored ⟨[], []⟩,
    [("player_cache/processed/x_processed.js", "OLD")], []⟩

/-- The signature-result memory cache as constructed by the module. -/
def sigCacheEmpty : LRUCache (List Char) (List Char) :=
  LRUCache.empty 500 SIG_TTL

/-! ## Association-list lemmas -/

theorem mapGet_cons {κ β : Type} [DecidableEq κ] (a : κ) (b : β) (l : List (κ × β)) (k : κ) :
    mapGet ((a, b) :: l) k = if a = k then some b else mapGet l k := by
  by_cases h : a = k <;> simp [mapGet, List.find?_cons, h]

theorem mapGet_append_self {κ β : Type} [DecidableEq κ] (l : List (κ × β)) (k : κ) (v : β)
    (h : mapGet l k = none) : mapGet (l ++ [(k, v)]) k = some v := by
  induction l with
  | nil => simp [mapGet]
  | cons a l ih =>
    obtain ⟨a1, a2⟩ := a
    rw [mapGet_cons] at h
    by_cases ha : a1 = k
    · simp [ha] at h
    · rw [List.cons_append, mapGet_cons, if_neg ha]
      exact ih (by simpa [ha] using h)

theorem mapGet_append_left {κ β : Type} [DecidableEq κ] (l l' : List (κ × β)) (k : κ) (v : β)
    (h : mapGet l k = some v) : mapGet (l ++ l') k = some v := by
  induction l with
  | nil => simp [mapGet] at h
  | cons a l ih =>
    obtain ⟨a1, a2⟩ := a
    rw [mapGet_cons] at h
    by_cases ha : a1 = k
    · rw [List.cons_append, mapGet_cons, if_pos ha]
      simpa [ha] using h
    · rw [List.cons_append, mapGet_cons, if_neg ha]
      exact ih (by simpa [ha] using h)

theorem mapGet_append_none {κ β : Type} [DecidableEq κ] (l l' : List (κ × β)) (k : κ)
    (h : mapGet l k = none) (h' : mapGet l' k = none) : mapGet (l ++ l') k = none := by
  induction l with
  | nil => simpa
  | cons a l ih =>
    obtain ⟨a1, a2⟩ := a
    rw [mapGet_cons] at h
    by_cases ha : a1 = k
    · simp [ha] at h
    · rw [List.cons_append, mapGet_cons, if_neg ha]
      exact ih (by simpa [ha] using h)

theorem mapDelete_cons_self {κ β : Type} [DecidableEq κ] (k : κ) (v : β) (l : List (κ × β)) :
    mapDelete ((k, v) :: l) k = l := by
  simp [mapDelete, List.eraseP_cons]

theorem mapGet_eq_none_of_not_mem {κ β : Type} [DecidableEq κ] (l : List (κ × β)) (k : κ)
    (h : k ∉ mapKeys l) : mapGet l k = none := by
  induction l with
  | nil => rfl
  | cons a l ih =>
    obtain ⟨a1, a2⟩ := a
    simp only [mapKeys, List.map_cons, List.mem_cons, not_or] at h
    rw [mapGet_cons, if_neg (fun he => h.1 he.symm)]
    exact ih h.2

theorem mapGet_mapDelete_self {κ β : Type} [DecidableEq κ] (l : List (κ × β)) (k : κ)
    (hnd : (mapKeys l).Nodup) : mapGet (mapDelete l k) k = none := by
  induction l with
  | nil => rfl
  | cons a l ih =>
    obtain ⟨a1, a2⟩ := a
    simp only [mapKeys, List.map_cons, List.nodup_cons] at hnd
    by_cases ha : a1 = k
    · subst ha
      rw [mapDelete_cons_self]
      exact mapGet_eq_none_of_not_mem l a1 hnd.1
    · rw [show mapDelete ((a1, a2) :: l) k = (a1, a2) :: mapDelete l k by
        simp [mapDelete, List.eraseP_cons, ha]]
      rw [mapGet_cons, if_neg ha]
      exact ih hnd.2

theorem mapGet_mapSet_self {κ β : Type} [DecidableEq κ] (l : List (κ × β)) (k : κ) (v : β) :
    mapGet (mapSet l k v) k = some v := by
  unfold mapSet
  by_cases h : (mapGet l k).isSome
  · rw [if_pos h]
    induction l with
    | nil => simp [mapGet] at h
    | cons a l ih =>
      obtain ⟨a1, a2⟩ := a
      by_cases ha : a1 = k
      · simp [ha, mapGet_cons]
      · rw [mapGet_cons, if_neg ha] at h
        simpa [ha, mapGet_cons] using ih h
  · rw [if_neg h]
    exact mapGet_append_self l k v (by
      cases hg : mapGet l k
      · rfl
      · simp [hg] at h)

/-! ## Claim C3: queue backpressure -/

/-- C3: whenever `exec()` is called while the pending queue already holds
`MAX_QUEUE_SIZE` tasks, the call fails immediately with the queue-full
rejection and the pool state is left entirely unchanged. -/
theorem claim_C3_queue_backpressure {α : Type} (s : PoolState α) (d : α)
    (h : s.queue.length = MAX_QUEUE_SIZE) :
    execPool s d = (.rejectedQueueFull, s) := by
  simp [execPool, h]

/-- Witness for C3 at a pool whose queue holds exactly 1000 tasks. -/
theorem claim_C3_witness :
    poolFullQueue.queue.length = MAX_QUEUE_SIZE ∧
      execPool poolFullQueue () = (.rejectedQueueFull, poolFullQueue) := by
  have h : poolFullQueue.queue.length = MAX_QUEUE_SIZE := by
    simp [poolFullQueue, initPool]
  exact ⟨h, claim_C3_queue_backpressure poolFullQueue () h⟩

/-! ## Claim C10: uninitialized pool throws synchronously -/

/-- C10: `execInPool` with no pool (before `initWorkers`, or at any point
after `shutdownWorkers`) throws the synchronous "Worker pool not
initialized" exception, while with a live pool every outcome — including
the queue-full failure — is delivered asynchronously through the returned
promise. -/
theorem claim_C10_uninitialized_throws :
    (∀ (α : Type) (d : α),
        execInPool (none : Option (PoolState α)) d =
          (.thrown "Worker pool not initialized", none)) ∧
    (∀ (α : Type) (p : Option (PoolState α)) (d : α),
        execInPool (shutdownWorkers p) d = (.thrown "Worker pool not initialized", none)) ∧
    (∀ (α : Type) (p : PoolState α) (d : α), (execInPool (some p) d).1.isAsync = true) := by
  refine ⟨fun α d => rfl, fun α p d => ?_, fun α p d => ?_⟩
  · cases p <;> rfl
  · simp only [execInPool, execPool]
    split <;> simp [ExecOutcome.isAsync]

/-! ## Claim C4: shutdown semantics -/

/-- C4: `shutdown()` clears every internal collection (worker array, idle
list, queue, task map — terminating every live worker), rejects every
queued and every in-flight task with the shutdown error, and after
`shutdownWorkers()` every `exec` call throws until `initWorkers()`
recreates the pool, after which calls are served again. -/
theorem claim_C4_shutdown (α : Type) (s : PoolState α) :
    (shutdownPool s).workers = [] ∧
    (shutdownPool s).availableWorkers = [] ∧
    (shutdownPool s).queue = [] ∧
    (shutdownPool s).taskMap = [] ∧
    (∀ t, t ∈ s.queue → (t.id, Settle.rejectedShutdown) ∈ (shutdownPool s).settled) ∧
    (∀ w t, (w, t) ∈ s.taskMap → (t.id, Settle.rejectedShutdown) ∈ (shutdownPool s).settled) ∧
    (∀ d : α, (execInPool (shutdownWorkers (some s)) d).1 =
        .thrown "Worker pool not initialized") ∧
    (∀ (c : Nat) (d : α),
        (execInPool (initWorkers α c (shutdownWorkers (some s))) d).1.isAsync = true) := by
  refine ⟨rfl, rfl, rfl, rfl, ?_, ?_, fun d => rfl, fun c d => ?_⟩
  · intro t ht
    simp only [shutdownPool, List.mem_append]
    exact Or.inl (Or.inr (List.mem_map_of_mem _ ht))
  · intro w t ht
    simp only [shutdownPool, List.mem_append]
    exact Or.inr (List.mem_map_of_mem _ ht)
  · rfl

/-- Witness for C4 on the §8 scenario: three queued and two in-flight
tasks all reject with the shutdown error, the collections are cleared, and
`exec` throws after teardown. -/
theorem claim_C4_witness :
    ((⟨(), 5⟩ : PoolTask Unit) ∈ poolShutdownScenario.queue) ∧
      ((0, (⟨(), 1⟩ : PoolTask Unit)) ∈ poolShutdownScenario.taskMap) ∧
      ((5, Settle.rejectedShutdown) ∈ (shutdownPool poolShutdownScenario).settled) ∧
      ((1, Settle.rejectedShutdown) ∈ (shutdownPool poolShutdownScenario).settled) ∧
      (shutdownPool poolShutdownScenario).taskMap = [] ∧
      (execInPool (shutdownWorkers (some poolShutdownScenario)) ()).1 =
        .thrown "Worker pool not initialized" := by
  have h := claim_C4_shutdown Unit poolShutdownScenario
  exact ⟨by decide, by decide,
    h.2.2.2.2.1 ⟨(), 5⟩ (by decide), h.2.2.2.2.2.1 0 ⟨(), 1⟩ (by decide),
    h.2.2.2.1, h.2.2.2.2.2.2.1 ()⟩

/-! ## Claim C2: task timeout -/

theorem bindLoop_nil_queue {α : Type} (avail : List Nat) (tm : List (Nat × PoolTask α))
    (tms : List (Nat × Nat)) : bindLoop avail [] tm tms = (avail, [], tm, tms) := by
  cases avail <;> rfl

/-- The timed-out state, written out: timer disarmed, task unbound and
rejected, worker spliced out of the pool array, everything else as
before. -/
theorem onTimeout_eq {α : Type} (s : PoolState α) (w : Nat) (t : PoolTask α)
    (hbound : mapGet s.taskMap w = some t)
    (htimer : (w, t.id) ∈ s.timers)
    (hq : s.queue = []) :
    onTimeout s w t.id =
      { s with
        workers := s.workers.erase w
        queue := []
        taskMap := mapDelete s.taskMap w
        timers := s.timers.erase (w, t.id)
        settled := s.settled ++ [(t.id, Settle.rejectedTimeout)] } := by
  rw [onTimeout, if_pos htimer]
  show (match mapGet s.taskMap w with
    | some t' => _
    | none => _) = _
  rw [hbound]
  simp only [if_pos rfl]
  simp [dispatch, settleTask, hq, bindLoop_nil_queue]

/-- A `dispatch` on a single-task queue binds that task: either an idle
worker exists, or the pool is below capacity and a worker is created. -/
theorem dispatch_single {α : Type} (s : PoolState α) (t : PoolTask α)
    (hq : s.queue = [t])
    (hcap : s.availableWorkers = [] → s.workers.length < s.size) :
    (dispatch s).queue = [] ∧ ∃ w', mapGet (dispatch s).taskMap w' = some t := by
  rw [dispatch]
  cases hav : s.availableWorkers with
  | nil =>
    have hlt := hcap hav
    refine ⟨?_, s.nextWorker, ?_⟩ <;>
      simp [hq, hav, hlt, bindLoop, bindLoop_nil_queue, mapGet_mapSet_self]
  | cons a rest =>
    refine ⟨?_, a, ?_⟩ <;>
      simp [hq, hav, bindLoop, bindLoop_nil_queue, mapGet_mapSet_self]

/-- An `exec` into an empty-queue pool that has an idle worker or spare
capacity succeeds with the next monotonic id and its task is immediately
bound to some worker. -/
theorem execPool_empty_progress {α : Type} (s : PoolState α) (d : α)
    (hq : s.queue = [])
    (hcap : s.availableWorkers = [] → s.workers.length < s.size) :
    (execPool s d).1 = .queued (s.taskIdCounter + 1) ∧
    (execPool s d).2.queue = [] ∧
    ∃ w', mapGet (execPool s d).2.taskMap w' = some ⟨d, s.taskIdCounter + 1⟩ := by
  have hnot : ¬(s.queue.length ≥ MAX_QUEUE_SIZE) := by rw [hq]; simp [MAX_QUEUE_SIZE]
  rw [execPool, if_neg hnot]
  refine ⟨rfl, ?_⟩
  exact dispatch_single _ ⟨d, s.taskIdCounter + 1⟩ (by simp [hq]) (fun h => hcap h)

/-- C2: when the timer of a task still bound to its worker fires, the task
rejects with the timeout error, the worker is terminated and removed from
the pool's worker set (not returned to idle, never reused), capacity is
freed so the pool keeps serving: with an empty queue, the next `exec`
succeeds and its task is immediately bound to some worker.  A timer whose
task id no longer matches the worker's currently bound task does nothing
beyond expiring. -/
theorem claim_C2_task_timeout {α : Type} (s : PoolState α) (w : Nat) (t : PoolTask α)
    (hbound : mapGet s.taskMap w = some t)
    (htimer : (w, t.id) ∈ s.timers)
    (hw : w ∈ s.workers)
    (hwnd : s.workers.Nodup)
    (htnd : (mapKeys s.taskMap).Nodup)
    (hnav : w ∉ s.availableWorkers)
    (hsz : s.workers.length ≤ s.size)
    (hq : s.queue = []) :
    ((t.id, Settle.rejectedTimeout) ∈ (onTimeout s w t.id).settled) ∧
    (w ∉ (onTimeout s w t.id).workers) ∧
    (mapGet (onTimeout s w t.id).taskMap w = none) ∧
    (w ∉ (onTimeout s w t.id).availableWorkers) ∧
    ((onTimeout s w t.id).workers.length < s.size) ∧
    (∀ d : α,
      (execPool (onTimeout s w t.id) d).1 = .queued (s.taskIdCounter + 1) ∧
      (execPool (onTimeout s w t.id) d).2.queue = [] ∧
      ∃ w', mapGet (execPool (onTimeout s w t.id) d).2.taskMap w' =
        some ⟨d, s.taskIdCounter + 1⟩) ∧
    (∀ (w₂ tid₂ : Nat), (w₂, tid₂) ∈ s.timers →
      (∀ t₂, mapGet s.taskMap w₂ = some t₂ → t₂.id ≠ tid₂) →
      onTimeout s w₂ tid₂ = { s with timers := s.timers.erase (w₂, tid₂) }) := by
  have hstep := onTimeout_eq s w t hbound htimer hq
  have hlen : s.workers.length < s.size + 1 := Nat.lt_succ_of_le hsz
  have hpos : 0 < s.workers.length := List.length_pos.mpr (fun he => by simp [he] at hw)
  have herase : (s.workers.erase w).length = s.workers.length - 1 :=
    List.length_erase_of_mem hw
  refine ⟨?_, ?_, ?_, ?_, ?_, ?_, ?_⟩
  · rw [hstep]; simp
  · rw [hstep]; exact hwnd.not_mem_erase
  · rw [hstep]; exact mapGet_mapDelete_self s.taskMap w htnd
  · rw [hstep]; exact hnav
  · rw [hstep]; simp only [herase]; omega
  · intro d
    rw [hstep]
    refine execPool_empty_progress _ d rfl (fun _ => ?_)
    show (s.workers.erase w).length < s.size
    rw [herase]; omega
  · intro w₂ tid₂ hmem hne
    rw [onTimeout, if_pos hmem]
    show (match mapGet s.taskMap w₂ with
      | some t' => _
      | none => _) = _
    cases hg : mapGet s.taskMap w₂ with
    | none => rfl
    | some t₂ => simp only [if_neg (hne t₂ hg)]

/-- Witness for C2 on a reachable one-busy-worker pool: the bound task's
timer fires, the task rejects with the timeout error, worker 0 is gone,
and the next submission is served by a fresh worker. -/
theorem claim_C2_witness :
    (mapGet poolOneBusy.taskMap 0 = some ⟨(), 1⟩) ∧
    ((0, 1) ∈ poolOneBusy.timers) ∧
    ((1, Settle.rejectedTimeout) ∈ (onTimeout poolOneBusy 0 1).settled) ∧
    (0 ∉ (onTimeout poolOneBusy 0 1).workers) ∧
    ((execPool (onTimeout poolOneBusy 0 1) ()).1 = .queued 2) := by
  have h := claim_C2_task_timeout poolOneBusy 0 ⟨(), 1⟩ (by decide) (by decide) (by decide)
    (by decide) (by decide) (by decide) (by decide) (by decide)
  exact ⟨by decide, by decide, h.1, h.2.1, (h.2.2.2.2.2.1 ()).1⟩

/-! ## Claim C1: bounded concurrency -/

/-- C1 (violation): after a crash-loop worker fault while the worker sits
idle, `replaceWorker` pushes the replacement onto `availableWorkers`
without purging the terminated worker from that list, so `dispatch` binds
a task to the zombie: on a pool of size 1, the `zombieTrace` run ends with
two tasks simultaneously bound in `taskMap`, exceeding `poolSize`. -/
theorem claim_C1_bound_violation :
    (initPool Unit 1).size = 1 ∧
    (poolRun (initPool Unit 1) zombieTrace).taskMap.length = 2 ∧
    ¬((poolRun (initPool Unit 1) zombieTrace).taskMap.length ≤
        (poolRun (initPool Unit 1) zombieTrace).size) := by
  refine ⟨rfl, by decide, by decide⟩

/-! ## More association-list lemmas (for the cache claims) -/

theorem mapGet_none_iff {κ β : Type} [DecidableEq κ] (l : List (κ × β)) (k : κ) :
    mapGet l k = none ↔ k ∉ mapKeys l := by
  constructor
  · intro h hmem
    induction l with
    | nil => simp [mapKeys] at hmem
    | cons a l ih =>
      obtain ⟨a1, a2⟩ := a
      rw [mapGet_cons] at h
      by_cases ha : a1 = k
      · simp [ha] at h
      · simp only [mapKeys, List.map_cons, List.mem_cons] at hmem
        rcases hmem with he | hmem
        · exact ha he.symm
        · exact ih (by simpa [ha] using h) hmem
  · exact mapGet_eq_none_of_not_mem l k

theorem mem_of_mapGet_some {κ β : Type} [DecidableEq κ] {l : List (κ × β)} {k : κ} {v : β}
    (h : mapGet l k = some v) : (k, v) ∈ l := by
  induction l with
  | nil => simp [mapGet] at h
  | cons a l ih =>
    obtain ⟨a1, a2⟩ := a
    rw [mapGet_cons] at h
    by_cases ha : a1 = k
    · subst ha
      have hv : a2 = v := by simpa using h
      subst hv
      exact List.mem_cons_self _ _
    · exact List.mem_cons_of_mem _ (ih (by simpa [ha] using h))

theorem mapKeys_mapDelete_sublist {κ β : Type} [DecidableEq κ] (l : List (κ × β)) (k : κ) :
    (mapKeys (mapDelete l k)).Sublist (mapKeys l) := by
  unfold mapKeys mapDelete
  exact (List.eraseP_sublist l).map _

theorem mapGet_mapDelete_none {κ β : Type} [DecidableEq κ] (l : List (κ × β)) (k k₂ : κ)
    (h : mapGet l k₂ = none) : mapGet (mapDelete l k) k₂ = none := by
  rw [mapGet_none_iff] at h ⊢
  intro hmem
  exact h ((mapKeys_mapDelete_sublist l k).mem hmem)

theorem mapKeys_mapDelete_nodup {κ β : Type} [DecidableEq κ] (l : List (κ × β)) (k : κ)
    (hnd : (mapKeys l).Nodup) : (mapKeys (mapDelete l k)).Nodup :=
  (mapKeys_mapDelete_sublist l k).nodup hnd

theorem length_mapDelete {κ β : Type} [DecidableEq κ] (l : List (κ × β)) (k : κ) (v : β)
    (h : mapGet l k = some v) : (mapDelete l k).length = l.length - 1 :=
  List.length_eraseP_of_mem (mem_of_mapGet_some h) (by simp)

/-! ## Claim C5: memory LRU eviction exactness -/

/-- C5 fails as stated for a cache of capacity 1: the key `"a"` is read
(a fresh hit, promoting it to most-recently-used) immediately before the
next insertion, yet that insertion evicts it. -/
theorem claim_C5_counterexample :
    (((LRUCache.empty 1 100 : LRUCache String Nat).set "a" 7 0).get "a" 1).1 = some 7 ∧
    mapGet ((((((LRUCache.empty 1 100 : LRUCache String Nat).set "a" 7 0).get "a" 1).2).set
        "b" 8 2).cache) "a" = none := by
  decide

theorem lru_set_full_new {κ α : Type} [DecidableEq κ] (c : LRUCache κ α) (k : κ) (v : α)
    (now : Nat) (hnew : mapGet c.cache k = none) (hfull : c.cache.length ≥ c.maxSize) :
    (c.set k v now).cache = c.cache.tail ++ [(k, ⟨v, now, now⟩)] := by
  unfold LRUCache.set
  simp only [hnew, Option.isSome_none, Bool.false_eq_true, if_false, hfull, if_true]
  cases hc : c.cache with
  | nil => simp
  | cons hd rest =>
    obtain ⟨k0, e0⟩ := hd
    simp [mapDelete, List.eraseP_cons_of_pos]

theorem lru_get_fresh_hit {κ α : Type} [DecidableEq κ] (c : LRUCache κ α) (k : κ)
    (e : CacheEntry α) (now : Nat)
    (hhit : mapGet c.cache k = some e) (hfresh : ¬(now - e.timestamp > c.ttl)) :
    c.get k now = (some e.value,
      { c with cache := mapDelete c.cache k ++ [(k, { e with lastAccessed := now })] }) := by
  unfold LRUCache.get
  rw [hhit]
  simp only [if_neg hfresh]

/-- After a fresh `get` of `k'` (which re-appends `k'` at the tail), a
`set` of a new key evicts — if anything — the head of the reordered list,
which cannot be `k'` as long as a second entry exists. -/
theorem lru_get_protects {κ α : Type} [DecidableEq κ] (c : LRUCache κ α)
    (k' knew : κ) (e : CacheEntry α) (v : α) (now now' : Nat)
    (hnd : (mapKeys c.cache).Nodup)
    (hhit : mapGet c.cache k' = some e)
    (hfresh : ¬(now - e.timestamp > c.ttl))
    (htwo : 2 ≤ c.cache.length)
    (hnewk : mapGet c.cache knew = none)
    (hne : knew ≠ k') :
    mapGet (((c.get k' now).2).set knew v now').cache k' =
      some { e with lastAccessed := now } := by
  rw [lru_get_fresh_hit c k' e now hhit hfresh]
  have hdel_none : mapGet (mapDelete c.cache k') k' = none :=
    mapGet_mapDelete_self c.cache k' hnd
  have hdlen : (mapDelete c.cache k').length = c.cache.length - 1 :=
    length_mapDelete _ _ _ hhit
  cases hdc : mapDelete c.cache k' with
  | nil =>
    exfalso
    rw [hdc] at hdlen
    simp only [List.length_nil] at hdlen
    omega
  | cons d0 dtl =>
    obtain ⟨dk, de⟩ := d0
    have hdk_ne : dk ≠ k' := by
      rw [hdc, mapGet_cons] at hdel_none
      intro he
      simp [he] at hdel_none
    have hdtl_none : mapGet dtl k' = none := by
      rw [hdc, mapGet_cons] at hdel_none
      simpa [hdk_ne] using hdel_none
    have hnew' :
        mapGet (((dk, de) :: dtl) ++ [(k', { e with lastAccessed := now })]) knew = none := by
      refine mapGet_append_none _ _ _ ?_ ?_
      · rw [← hdc]
        exact mapGet_mapDelete_none _ _ _ hnewk
      · rw [mapGet_cons, if_neg (fun h => hne h.symm)]
        rfl
    have hget_in_promoted :
        mapGet (((dk, de) :: dtl) ++ [(k', { e with lastAccessed := now })]) k' =
          some { e with lastAccessed := now } := by
      rw [← hdc]
      exact mapGet_append_self _ _ _ hdel_none
    unfold LRUCache.set
    simp only [hnew', Option.isSome_none, Bool.false_eq_true, if_false]
    split
    · -- at capacity: the head `(dk, de)` of the reordered list is evicted
      simp only [List.cons_append, List.head?_cons]
      rw [show mapDelete (((dk, de) :: (dtl ++ [(k', { e with lastAccessed := now })]))) dk =
          dtl ++ [(k', { e with lastAccessed := now })] from by
        simp [mapDelete, List.eraseP_cons_of_pos]]
      exact mapGet_append_left _ _ _ _ (mapGet_append_self _ _ _ hdtl_none)
    · exact mapGet_append_left _ _ _ _ hget_in_promoted

theorem lru_set_overwrite {κ α : Type} [DecidableEq κ] (c : LRUCache κ α) (k : κ)
    (e : CacheEntry α) (v : α) (now : Nat) (hold : mapGet c.cache k = some e) :
    (c.set k v now).cache.length = c.cache.length ∧
    (∀ k₂, k₂ ∈ mapKeys c.cache → k₂ ∈ mapKeys (c.set k v now).cache) ∧
    (c.set k v now).cache.getLast? = some (k, ⟨v, now, now⟩) := by
  have hpos : 0 < c.cache.length := List.length_pos.mpr (by
    intro he
    rw [he] at hold
    simp [mapGet] at hold)
  unfold LRUCache.set
  simp only [hold, Option.isSome_some, if_true]
  refine ⟨?_, ?_, ?_⟩
  · rw [List.length_append, length_mapDelete _ _ _ hold]
    simp only [List.length_cons, List.length_nil]
    omega
  · intro k₂ hmem
    by_cases hk : k₂ = k
    · subst hk
      simp [mapKeys]
    · obtain ⟨p, hp, hpk⟩ := List.mem_map.mp hmem
      have hpin : p ∈ mapDelete c.cache k := by
        refine (List.mem_eraseP_of_neg ?_).mpr hp
        simp [hpk, hk]
      exact List.mem_map.mpr ⟨p, List.mem_append_left _ hpin, hpk⟩
  · exact List.getLast?_concat _

/-- C5 (amended): with at least two live entries (true of every cache the
program constructs, whose capacities are all ≥ 20), the three stated LRU
properties hold: (a) inserting a new key into a full cache evicts exactly
the earliest-ordered (least-recently-accessed) entry — the result is the
old list minus its head plus the new tail entry; (b) a key read by a
fresh `get` just before the next insertion survives that insertion; (c)
overwriting an existing key preserves the entry count and every key, and
re-appends the key at the most-recently-used tail position.  Part (b) is
exactly the clause the capacity-1 counterexample forces to be weakened. -/
theorem claim_C5_lru_eviction (κ α : Type) [DecidableEq κ] :
    (∀ (c : LRUCache κ α) (k : κ) (v : α) (now : Nat),
      mapGet c.cache k = none → c.cache.length ≥ c.maxSize →
      (c.set k v now).cache = c.cache.tail ++ [(k, ⟨v, now, now⟩)]) ∧
    (∀ (c : LRUCache κ α) (k' knew : κ) (e : CacheEntry α) (v : α) (now now' : Nat),
      (mapKeys c.cache).Nodup → mapGet c.cache k' = some e →
      ¬(now - e.timestamp > c.ttl) → 2 ≤ c.cache.length →
      mapGet c.cache knew = none → knew ≠ k' →
      mapGet (((c.get k' now).2).set knew v now').cache k' =
        some { e with lastAccessed := now }) ∧
    (∀ (c : LRUCache κ α) (k : κ) (e : CacheEntry α) (v : α) (now : Nat),
      mapGet c.cache k = some e →
      (c.set k v now).cache.length = c.cache.length ∧
      (∀ k₂, k₂ ∈ mapKeys c.cache → k₂ ∈ mapKeys (c.set k v now).cache) ∧
      (c.set k v now).cache.getLast? = some (k, ⟨v, now, now⟩)) :=
  ⟨fun c k v now h1 h2 => lru_set_full_new c k v now h1 h2,
   fun c k' knew e v now now' h1 h2 h3 h4 h5 h6 =>
     lru_get_protects c k' knew e v now now' h1 h2 h3 h4 h5 h6,
   fun c k e v now h => lru_set_overwrite c k e v now h⟩

/-- Witness for C5 on a concrete two-entry cache of capacity 2. -/
theorem claim_C5_witness :
    ((⟨[("a", ⟨1, 0, 0⟩), ("b", ⟨2, 0, 0⟩)], 2, 100⟩ : LRUCache String Nat).set
        "c" 3 5).cache = [("b", ⟨2, 0, 0⟩), ("c", ⟨3, 5, 5⟩)] ∧
    mapGet ((((⟨[("a", ⟨1, 0, 0⟩), ("b", ⟨2, 0, 0⟩)], 2, 100⟩ :
        LRUCache String Nat).get "a" 1).2).set "c" 3 2).cache "a" = some ⟨1, 0, 1⟩ ∧
    ((⟨[("a", ⟨1, 0, 0⟩), ("b", ⟨2, 0, 0⟩)], 2, 100⟩ : LRUCache String Nat).set
        "b" 9 4).cache.getLast? = some ("b", ⟨9, 4, 4⟩) := by
  have h := claim_C5_lru_eviction String Nat
  refine ⟨?_, ?_, ?_⟩
  · have := h.1 ⟨[("a", ⟨1, 0, 0⟩), ("b", ⟨2, 0, 0⟩)], 2, 100⟩ "c" 3 5
      (by decide) (by decide)
    simpa using this
  · exact h.2.1 ⟨[("a", ⟨1, 0, 0⟩), ("b", ⟨2, 0, 0⟩)], 2, 100⟩ "a" "c" ⟨1, 0, 0⟩ 3 1 2
      (by decide) (by decide) (by decide) (by decide) (by decide) (by decide)
  · exact (h.2.2 ⟨[("a", ⟨1, 0, 0⟩), ("b", ⟨2, 0, 0⟩)], 2, 100⟩ "b" ⟨2, 0, 0⟩ 9 4
      (by decide)).2.2

/-! ## Claim C6: TTL expiry is silent and lazy in both layers -/

theorem scheduleSave_metadata (s : DiskState) : (scheduleSave s).metadata = s.metadata := by
  unfold scheduleSave; split <;> rfl

theorem scheduleSave_files (s : DiskState) : (scheduleSave s).files = s.files := by
  unfold scheduleSave; split <;> rfl

theorem scheduleSave_metaLoaded (s : DiskState) : (scheduleSave s).metaLoaded = s.metaLoaded := by
  unfold scheduleSave; split <;> rfl

theorem scheduleSave_badFiles (s : DiskState) : (scheduleSave s).badFiles = s.badFiles := by
  unfold scheduleSave; split <;> rfl

theorem loadMeta_loaded (s : DiskState) (hld : s.metaLoaded = true) :
    loadMeta s = .ok s := by
  unfold loadMeta
  rw [if_pos hld]

/-- `getPreprocessed` on an expired entry, written out: backing file
unlinked, metadata entry deleted, save scheduled, miss returned with no
error. -/
theorem getPreprocessed_expired_eq (zd : String → String) (s : DiskState) (path : String)
    (m : ProcEntry) (now : Nat)
    (hld : s.metaLoaded = true)
    (hm : mapGet s.metadata.processed path = some m)
    (hexp : now - m.t > CACHE_TTL) :
    getPreprocessed zd s path now = .ok (none,
      scheduleSave (setProcessed (unlinkFile s (procFilePath path m.compressed))
        (mapDelete s.metadata.processed path))) := by
  unfold getPreprocessed
  rw [loadMeta_loaded s hld]
  show (match mapGet s.metadata.processed path with
    | none => _
    | some meta => _) = _
  rw [hm]
  simp only [if_pos hexp]
  rfl

/-- C6: an entry older than `ttl` is treated as a miss by `get` and `has`
in the memory layer (the map entry is deleted on that access) and by the
disk layer's `getPreprocessed` (the payload file and the metadata entry
are both deleted), with no error surfaced in either case. -/
theorem claim_C6_ttl_expiry :
    (∀ (κ α : Type) [DecidableEq κ] (c : LRUCache κ α) (k : κ) (e : CacheEntry α) (now : Nat),
      (mapKeys c.cache).Nodup → mapGet c.cache k = some e → now - e.timestamp > c.ttl →
      c.get k now = (none, { c with cache := mapDelete c.cache k }) ∧
      c.has k now = (false, { c with cache := mapDelete c.cache k }) ∧
      mapGet (mapDelete c.cache k) k = none) ∧
    (∀ (zd : String → String) (s : DiskState) (path : String) (m : ProcEntry) (now : Nat),
      s.metaLoaded = true →
      (mapKeys s.metadata.processed).Nodup → (mapKeys s.files).Nodup →
      mapGet s.metadata.processed path = some m → now - m.t > CACHE_TTL →
      ∃ s' : DiskState, getPreprocessed zd s path now = .ok (none, s') ∧
        mapGet s'.metadata.processed path = none ∧
        mapGet s'.files (procFilePath path m.compressed) = none) := by
  constructor
  · intro κ α _ c k e now hnd hm hexp
    refine ⟨?_, ?_, mapGet_mapDelete_self _ _ hnd⟩
    · unfold LRUCache.get
      rw [hm]
      simp only [if_pos hexp]
    · unfold LRUCache.has
      rw [hm]
      simp only [if_pos hexp]
  · intro zd s path m now hld hnd1 hnd2 hm hexp
    refine ⟨scheduleSave (setProcessed (unlinkFile s (procFilePath path m.compressed))
        (mapDelete s.metadata.processed path)),
      getPreprocessed_expired_eq zd s path m now hld hm hexp, ?_, ?_⟩
    · rw [scheduleSave_metadata]
      exact mapGet_mapDelete_self _ _ hnd1
    · rw [scheduleSave_files]
      exact mapGet_mapDelete_self _ _ hnd2

/-- Witness for C6 on a one-entry memory cache and the concrete expired
disk state. -/
theorem claim_C6_witness :
    ((⟨[("k", ⟨5, 0, 0⟩)], 50, 100⟩ : LRUCache String Nat).get "k" 101 =
      (none, ⟨[], 50, 100⟩)) ∧
    ((⟨[("k", ⟨5, 0, 0⟩)], 50, 100⟩ : LRUCache String Nat).has "k" 101 =
      (false, ⟨[], 50, 100⟩)) ∧
    (∃ s', getPreprocessed id diskExpired "x.js" (CACHE_TTL + 1) = .ok (none, s') ∧
      mapGet s'.metadata.processed "x.js" = none ∧
      mapGet s'.files (procFilePath "x.js" false) = none) := by
  have hmem := (claim_C6_ttl_expiry.1 String Nat
    ⟨[("k", ⟨5, 0, 0⟩)], 50, 100⟩ "k" ⟨5, 0, 0⟩ 101 (by decide) (by decide) (by decide))
  have hdisk := claim_C6_ttl_expiry.2 id diskExpired "x.js" ⟨0, 0, false⟩ (CACHE_TTL + 1)
    (by decide) (by decide) (by decide) (by decide) (by decide)
  exact ⟨hmem.1, hmem.2.1, hdisk⟩

/-! ## Claim C7: disk compression round-trip -/

theorem except_bind_ok {ε α β : Type} (a : α) (f : α → Except ε β) :
    (Except.ok a : Except ε α) >>= f = f a := rfl

/-- `setPreprocessed` below capacity, written out: payload written at the
flag-dependent path, entry recorded with the compression flag, save
scheduled. -/
theorem setPreprocessed_small_eq (zc : String → String) (s : DiskState)
    (path content : String) (now : Nat)
    (hld : s.metaLoaded = true)
    (hsmall : s.metadata.processed.length < DISK_CACHE_SIZE) :
    setPreprocessed zc s path content now = .ok (scheduleSave (setProcessed
      (writeFileAt s (procFilePath path (compressContent zc content).2)
        (compressContent zc content).1)
      (mapSet s.metadata.processed path ⟨now, now, (compressContent zc content).2⟩))) := by
  unfold setPreprocessed
  rw [loadMeta_loaded s hld, except_bind_ok]
  rw [if_neg (fun h => absurd h.1 (by omega))]
  rfl

/-- `getPreprocessed` on a fresh entry whose backing file reads
successfully, written out: decode per the flag, refresh `lastAccessed`,
schedule a save. -/
theorem getPreprocessed_hit_eq (zd : String → String) (s : DiskState) (path : String)
    (m : ProcEntry) (data : String) (now : Nat)
    (hld : s.metaLoaded = true)
    (hm : mapGet s.metadata.processed path = some m)
    (hfresh : ¬(now - m.t > CACHE_TTL))
    (hdata : readFileAt s (procFilePath path m.compressed) = .ok data) :
    getPreprocessed zd s path now = .ok (some (decompressContent zd data m.compressed),
      scheduleSave (setProcessed s (mapSet s.metadata.processed path { m with a := now }))) := by
  unfold getPreprocessed
  rw [loadMeta_loaded s hld]
  show (match mapGet s.metadata.processed path with
    | none => _
    | some meta => _) = _
  rw [hm]
  simp only [if_neg hfresh]
  rw [hdata]

/-- C7: storing a payload longer than the threshold records
`compressed = true` in the entry's metadata, and — as long as the codec
inverts (`zd ∘ zc = id` on the payload) and the backing file is readable —
every subsequent fresh `get` returns the original payload byte for byte;
a repeated `get` keeps returning it. -/
theorem claim_C7_compression_roundtrip (zc zd : String → String) (s : DiskState)
    (path content : String) (now now₁ now₂ : Nat)
    (hzd : zd (zc content) = content)
    (hld : s.metaLoaded = true)
    (hbig : content.length > COMPRESSION_THRESHOLD)
    (hsmall : s.metadata.processed.length < DISK_CACHE_SIZE)
    (hbad : procFilePath path true ∉ s.badFiles)
    (hfresh₁ : ¬(now₁ - now > CACHE_TTL))
    (hfresh₂ : ¬(now₂ - now > CACHE_TTL)) :
    ∃ s₁, setPreprocessed zc s path content now = .ok s₁ ∧
      mapGet s₁.metadata.processed path = some ⟨now, now, true⟩ ∧
      ∃ s₂, getPreprocessed zd s₁ path now₁ = .ok (some content, s₂) ∧
        ∃ s₃, getPreprocessed zd s₂ path now₂ = .ok (some content, s₃) := by
  have hcc : compressContent zc content = (zc content, true) := by
    unfold compressContent shouldCompress
    rw [if_pos (by simpa using hbig)]
  set s₁ : DiskState := scheduleSave (setProcessed
      (writeFileAt s (procFilePath path true) (zc content))
      (mapSet s.metadata.processed path ⟨now, now, true⟩)) with hs₁
  have hset : setPreprocessed zc s path content now = .ok s₁ := by
    rw [setPreprocessed_small_eq zc s path content now hld hsmall, hcc]
  have hs₁meta : s₁.metadata.processed = mapSet s.metadata.processed path ⟨now, now, true⟩ := by
    rw [hs₁, scheduleSave_metadata]
    rfl
  have hs₁get : mapGet s₁.metadata.processed path = some ⟨now, now, true⟩ := by
    rw [hs₁meta]
    exact mapGet_mapSet_self _ _ _
  have hs₁files : s₁.files = mapSet s.files (procFilePath path true) (zc content) := by
    rw [hs₁, scheduleSave_files]
    rfl
  have hs₁bad : s₁.badFiles = s.badFiles := by rw [hs₁, scheduleSave_badFiles]; rfl
  have hs₁ld : s₁.metaLoaded = true := by
    rw [hs₁, scheduleSave_metaLoaded]
    exact hld
  have hs₁read : readFileAt s₁ (procFilePath path true) = .ok (zc content) := by
    unfold readFileAt
    rw [hs₁bad, if_neg hbad, hs₁files, mapGet_mapSet_self]
  have hget₁ := getPreprocessed_hit_eq zd s₁ path ⟨now, now, true⟩ (zc content) now₁
    hs₁ld hs₁get hfresh₁ hs₁read
  set s₂ : DiskState := scheduleSave (setProcessed s₁
      (mapSet s₁.metadata.processed path ⟨now, now₁, true⟩)) with hs₂
  have hdec : decompressContent zd (zc content) true = content := by
    unfold decompressContent
    rw [if_pos rfl]
    exact hzd
  have hs₂get : mapGet s₂.metadata.processed path = some ⟨now, now₁, true⟩ := by
    rw [hs₂, scheduleSave_metadata]
    show mapGet (mapSet s₁.metadata.processed path ⟨now, now₁, true⟩) path = _
    exact mapGet_mapSet_self _ _ _
  have hs₂files : s₂.files = s₁.files := by rw [hs₂, scheduleSave_files]; rfl
  have hs₂bad : s₂.badFiles = s₁.badFiles := by rw [hs₂, scheduleSave_badFiles]; rfl
  have hs₂ld : s₂.metaLoaded = true := by rw [hs₂, scheduleSave_metaLoaded]; exact hs₁ld
  have hs₂read : readFileAt s₂ (procFilePath path true) = .ok (zc content) := by
    unfold readFileAt
    rw [hs₂bad, hs₁bad, if_neg hbad, hs₂files, hs₁files, mapGet_mapSet_self]
  have hget₂ := getPreprocessed_hit_eq zd s₂ path ⟨now, now₁, true⟩ (zc content) now₂
    hs₂ld hs₂get hfresh₂ hs₂read
  refine ⟨s₁, hset, hs₁get, s₂, ?_,
    scheduleSave (setProcessed s₂ (mapSet s₂.metadata.processed path ⟨now, now₂, true⟩)), ?_⟩
  · rw [hget₁, hdec]
  · rw [hget₂, hdec]

/-- Witness for C7: a 4 MiB + 1 byte payload stored through the identity
codec is marked compressed and read back twice unchanged. -/
theorem claim_C7_witness :
    bigPayload.length > COMPRESSION_THRESHOLD ∧
    (∃ s₁, setPreprocessed id diskEmptyLoaded "x.js" bigPayload 0 = .ok s₁ ∧
      mapGet s₁.metadata.processed "x.js" = some ⟨0, 0, true⟩ ∧
      ∃ s₂, getPreprocessed id s₁ "x.js" 1 = .ok (some bigPayload, s₂) ∧
        ∃ s₃, getPreprocessed id s₂ "x.js" 2 = .ok (some bigPayload, s₃)) := by
  have hbig : bigPayload.length > COMPRESSION_THRESHOLD := by
    show (String.mk (List.replicate (COMPRESSION_THRESHOLD + 1) 'a')).length >
      COMPRESSION_THRESHOLD
    rw [show (String.mk (List.replicate (COMPRESSION_THRESHOLD + 1) 'a')).length =
        (List.replicate (COMPRESSION_THRESHOLD + 1) 'a').length from rfl,
      List.length_replicate]
    omega
  exact ⟨hbig, claim_C7_compression_roundtrip id id diskEmptyLoaded "x.js" bigPayload 0 1 2
    rfl rfl hbig (by decide) (by decide) (by decide) (by decide)⟩

/-! ## Claim C8: cache I/O error propagation -/

/-- C8 fails as stated: a non-`ENOENT` I/O error while loading the
metadata document — part of the disk cache's get path — is rethrown by
`loadMeta` (`if (err.code !== 'ENOENT') throw err`) and surfaces from
`getPreprocessed` instead of being treated as a miss. -/
theorem claim_C8_counterexample :
    getPreprocessed id diskMetaBroken "x.js" 0 = .error () ∧
    ∀ r : Option String × DiskState, getPreprocessed id diskMetaBroken "x.js" 0 ≠ .ok r := by
  refine ⟨rfl, fun r h => ?_⟩
  exact Except.noConfusion ((rfl : getPreprocessed id diskMetaBroken "x.js" 0 =
    .error ()).symm.trans h)

/-- C8 (amended): a payload-read failure of any kind — missing backing
file or any other I/O error — is swallowed by the catch-all around the
read: the call returns absent with no error and self-heals by deleting
the metadata entry; but a non-`ENOENT` error while loading the metadata
document is rethrown to the caller (only `ENOENT` is treated as empty
metadata). -/
theorem claim_C8_io_error_policy (zd : String → String) (s : DiskState) (path : String)
    (m : ProcEntry) (now : Nat)
    (hld : s.metaLoaded = true)
    (hnd : (mapKeys s.metadata.processed).Nodup)
    (hm : mapGet s.metadata.processed path = some m)
    (hfresh : ¬(now - m.t > CACHE_TTL))
    (hfail : readFileAt s (procFilePath path m.compressed) = .enoent ∨
      readFileAt s (procFilePath path m.compressed) = .ioErr) :
    (∃ s', getPreprocessed zd s path now = .ok (none, s') ∧
      mapGet s'.metadata.processed path = none) ∧
    (∀ s₀ : DiskState, s₀.metaLoaded = false → s₀.metaFile = .ioError →
      getPreprocessed zd s₀ path now = .error ()) := by
  constructor
  · refine ⟨scheduleSave (setProcessed s (mapDelete s.metadata.processed path)), ?_, ?_⟩
    · unfold getPreprocessed
      rw [loadMeta_loaded s hld, except_bind_ok]
      show (match mapGet s.metadata.processed path with
        | none => _
        | some meta => _) = _
      rw [hm]
      simp only [if_neg hfresh]
      rcases hfail with hf | hf <;> rw [hf]
    · rw [scheduleSave_metadata]
      exact mapGet_mapDelete_self _ _ hnd
  · intro s₀ h0 hio
    unfold getPreprocessed
    rw [show loadMeta s₀ = .error () from by
      unfold loadMeta
      rw [if_neg (by simp [h0]), hio]]
    rfl

/-- Witness for C8: a fresh metadata entry whose backing file is missing
yields a silent miss that deletes the stale entry, while the broken
metadata document state makes the same call throw. -/
theorem claim_C8_witness :
    (readFileAt diskStaleMeta (procFilePath "x.js" false) = .enoent) ∧
    (∃ s', getPreprocessed id diskStaleMeta "x.js" 5 = .ok (none, s') ∧
      mapGet s'.metadata.processed "x.js" = none) ∧
    getPreprocessed id diskMetaBroken "x.js" 5 = .error () := by
  have h := claim_C8_io_error_policy id diskStaleMeta "x.js" ⟨0, 0, false⟩ 5
    (by decide) (by decide) (by decide) (by decide) (Or.inl (by decide))
  exact ⟨by decide, h.1, h.2 diskMetaBroken (by decide) (by decide)⟩

/-! ## Claim C9: signature result cache identity -/

theorem splitChar_of_not_mem (sep : Char) (l : List Char) (h : sep ∉ l) :
    splitChar sep l = [l] := by
  induction l with
  | nil => rfl
  | cons c rest ih =>
    simp only [List.mem_cons, not_or] at h
    rw [splitChar]
    simp only [if_neg (fun he : c = sep => h.1 he.symm)]
    rw [ih h.2]

theorem splitChar_join (sep : Char) (s n : List Char) (hs : sep ∉ s) (hn : sep ∉ n) :
    splitChar sep (s ++ sep :: n) = [s, n] := by
  induction s with
  | nil =>
    rw [List.nil_append]
    simp [splitChar, splitChar_of_not_mem sep n hn]
  | cons c cs ih =>
    simp only [List.mem_cons, not_or] at hs
    rw [List.cons_append, splitChar]
    simp only [if_neg (fun he : c = sep => hs.1 he.symm)]
    rw [ih hs.2]

/-- On a missed key, the handler computes via the engine and stores the
joined pair; on the reordered state a fresh repeat lookup hits. -/
theorem lru_set_get_back {κ α : Type} [DecidableEq κ] (c : LRUCache κ α) (k : κ) (v : α)
    (now : Nat) (hmiss : mapGet c.cache k = none) :
    mapGet (c.set k v now).cache k = some ⟨v, now, now⟩ := by
  unfold LRUCache.set
  simp only [hmiss, Option.isSome_none, Bool.false_eq_true, if_false]
  split
  · cases hc : c.cache with
    | nil =>
      simp only [List.head?_nil]
      exact mapGet_append_self _ _ _ (by rfl)
    | cons hd rest =>
      obtain ⟨k0, e0⟩ := hd
      simp only [List.head?_cons]
      refine mapGet_append_self _ _ _ ?_
      rw [show mapDelete ((k0, e0) :: rest) k0 = rest from mapDelete_cons_self _ _ _]
      rw [hc, mapGet_cons] at hmiss
      by_cases h0 : k0 = k
      · simp [h0] at hmiss
      · simpa [h0] using hmiss
  · exact mapGet_append_self _ _ _ hmiss

theorem joinPair_ne_nil (s n : List Char) : (joinPair s n).isEmpty = false := by
  unfold joinPair
  cases s <;> rfl

/-- C9 fails as stated: when the first computed decrypted signature itself
contains the `"|"` separator, the joined-then-split cached value decodes
to a different pair, so the second request returns a pair that differs
from the first result (though the engine is indeed not re-invoked). -/
theorem claim_C9_counterexample :
    ((handleDecrypt sigCacheEmpty "p".data "e".data "m".data ("a|b".data, "c".data) 0).1 =
      ("a|b".data, "c".data)) ∧
    ((handleDecrypt (handleDecrypt sigCacheEmpty "p".data "e".data "m".data
        ("a|b".data, "c".data) 0).2.2 "p".data "e".data "m".data
        ("a|b".data, "c".data) 5).2.1 = false) ∧
    ((handleDecrypt (handleDecrypt sigCacheEmpty "p".data "e".data "m".data
        ("a|b".data, "c".data) 0).2.2 "p".data "e".data "m".data
        ("a|b".data, "c".data) 5).1 ≠ ("a|b".data, "c".data)) := by
  decide

/-- C9 (amended): for every value of the first computed pair in which
neither component contains the `"|"` separator, a repeat request within
the result TTL answers from the cache — without invoking the engine —
with exactly the pair computed and returned by the first request. -/
theorem claim_C9_signature_cache_identity (cache : LRUCache (List Char) (List Char))
    (path sig n dsig dn : List Char) (now₀ now₁ : Nat)
    (hmiss : mapGet cache.cache (decKey path sig n) = none)
    (hzs : '|' ∉ dsig) (hzn : '|' ∉ dn)
    (hfresh : ¬(now₁ - now₀ > cache.ttl)) :
    (handleDecrypt cache path sig n (dsig, dn) now₀).1 = (dsig, dn) ∧
    (handleDecrypt cache path sig n (dsig, dn) now₀).2.1 = true ∧
    (handleDecrypt ((handleDecrypt cache path sig n (dsig, dn) now₀).2.2)
        path sig n (dsig, dn) now₁).1 = (dsig, dn) ∧
    (handleDecrypt ((handleDecrypt cache path sig n (dsig, dn) now₀).2.2)
        path sig n (dsig, dn) now₁).2.1 = false := by
  have hget₀ : cache.get (decKey path sig n) now₀ = (none, cache) := by
    unfold LRUCache.get
    rw [hmiss]
  have h₁ : handleDecrypt cache path sig n (dsig, dn) now₀ =
      ((dsig, dn), true, cache.set (decKey path sig n) (joinPair dsig dn) now₀) := by
    simp only [handleDecrypt, hget₀]
  set c₂ := cache.set (decKey path sig n) (joinPair dsig dn) now₀ with hc₂
  have hback : mapGet c₂.cache (decKey path sig n) =
      some ⟨joinPair dsig dn, now₀, now₀⟩ :=
    lru_set_get_back cache _ _ _ hmiss
  have hfresh₂ : ¬(now₁ - (⟨joinPair dsig dn, now₀, now₀⟩ : CacheEntry _).timestamp >
      c₂.ttl) := hfresh
  have hget₁ := lru_get_fresh_hit c₂ (decKey path sig n) ⟨joinPair dsig dn, now₀, now₀⟩
    now₁ hback hfresh₂
  have h₂ : (handleDecrypt c₂ path sig n (dsig, dn) now₁).1 = (dsig, dn) ∧
      (handleDecrypt c₂ path sig n (dsig, dn) now₁).2.1 = false := by
    simp only [handleDecrypt, hget₁]
    simp only [joinPair_ne_nil, Bool.false_eq_true, if_false]
    rw [show joinPair dsig dn = dsig ++ '|' :: dn from rfl,
      splitChar_join '|' dsig dn hzs hzn]
    constructor
    all_goals first
      | rfl
      | trivial
  rw [h₁]
  exact ⟨rfl, rfl, h₂.1, h₂.2⟩

/-- Witness for C9 with separator-free components. -/
theorem claim_C9_witness :
    ((handleDecrypt sigCacheEmpty "p".data "e".data "m".data ("abc".data, "def".data) 0).1 =
      ("abc".data, "def".data)) ∧
    ((handleDecrypt (handleDecrypt sigCacheEmpty "p".data "e".data "m".data
        ("abc".data, "def".data) 0).2.2 "p".data "e".data "m".data
        ("abc".data, "def".data) 10).1 = ("abc".data, "def".data)) ∧
    ((handleDecrypt (handleDecrypt sigCacheEmpty "p".data "e".data "m".data
        ("abc".data, "def".data) 0).2.2 "p".data "e".data "m".data
        ("abc".data, "def".data) 10).2.1 = false) := by
  have h := claim_C9_signature_cache_identity sigCacheEmpty
    "p".data "e".data "m".data "abc".data "def".data 0 10
    (by decide) (by decide) (by decide) (by decide)
  exact ⟨h.1, h.2.2.1, h.2.2.2⟩

end YtCipher
